import Mathlib

/-!
Verification of the fastrand64 package (fastrand64.go).

The Go code is shallowly embedded over `Nat`: every `uint64` value is a
natural number kept below `2 ^ 64`, and every wrapping operation of the
source (`*`, `+`, `<<`) is followed by an explicit `% 2 ^ 64`.  Stateful
methods become functions returning a pair of the result and the updated
state.  The pool-backed wrapper draws from an abstract underlying
generator, modelled as a state type `σ` with a `next : σ → Nat × σ`
function, matching the Go `UnsafeRNG` interface (a source of `uint64`
draws).
-/

namespace Fastrand64

/-- `rol64` from fastrand64.go: `(x << k) | (x >> (64 - k))` on `uint64`,
the left shift wrapping modulo `2 ^ 64`. -/
def rol64 (x k : Nat) : Nat :=
  ((x <<< k) % 2 ^ 64) ||| (x >>> (64 - k))

/-- `Splitmix64` from fastrand64.go.  Every `uint64` addition and
multiplication of the source wraps modulo `2 ^ 64`. -/
def Splitmix64 (index : Nat) : Nat :=
  let z := (index + 0x9E3779B97F4A7C15) % 2 ^ 64
  let z := ((z ^^^ (z >>> 30)) * 0xBF58476D1CE4E5B9) % 2 ^ 64
  let z := ((z ^^^ (z >>> 27)) * 0x94D049BB133111EB) % 2 ^ 64
  let z := z ^^^ (z >>> 31)
  z

/-- The four 64-bit state words of `UnsafeXoshiro256ssRNG`. -/
structure UnsafeXoshiro256ssRNG where
  s0 : Nat
  s1 : Nat
  s2 : Nat
  s3 : Nat
deriving DecidableEq

/-- `UnsafeXoshiro256ssRNG.Uint64` from fastrand64.go: returns the drawn
`uint64` and the updated state.  The `let` sequence mirrors the source's
in-place assignments: `s2 ^= s0; s3 ^= s1; s1 ^= s2; s0 ^= s3; s2 ^= t;
s3 = rol64(s3, 45)`, each later assignment reading already-updated
words. -/
def UnsafeXoshiro256ssRNG.Uint64 (r : UnsafeXoshiro256ssRNG) :
    Nat × UnsafeXoshiro256ssRNG :=
  let result := (rol64 ((r.s1 * 5) % 2 ^ 64) 7 * 9) % 2 ^ 64
  let t := (r.s1 <<< 17) % 2 ^ 64
  let s2 := r.s2 ^^^ r.s0
  let s3 := r.s3 ^^^ r.s1
  let s1 := r.s1 ^^^ s2
  let s0 := r.s0 ^^^ s3
  let s2 := s2 ^^^ t
  let s3 := rol64 s3 45
  (result, ⟨s0, s1, s2, s3⟩)

/-- An underlying generator for the pool-backed wrapper and for `Bytes`:
a state `g : σ` together with `next g = (drawn uint64, updated state)`.
This is the embedding of the Go `UnsafeRNG` interface. -/
def drawFrom {σ : Type} (next : σ → Nat × σ) (g : σ) : Nat × σ := next g

/-- `ThreadsafePoolRNG.Uint64` from fastrand64.go: check a generator out
of the pool, draw one `uint64` from it, put it back.  With the pool
abstracted to the checked-out generator's state, this is exactly one
draw from the underlying generator. -/
def ThreadsafePoolRNG.Uint64 {σ : Type} (next : σ → Nat × σ) (g : σ) :
    Nat × σ :=
  drawFrom next g

/-- `ThreadsafePoolRNG.Int63` from fastrand64.go:
`int64(0x7FFFFFFFFFFFFFFF & s.Uint64())`.  The `int64` conversion of a
`uint64` value below `2 ^ 63` is value-preserving, hence `Int.ofNat`. -/
def ThreadsafePoolRNG.Int63 {σ : Type} (next : σ → Nat × σ) (g : σ) :
    Int × σ :=
  let p := ThreadsafePoolRNG.Uint64 next g
  (Int.ofNat (0x7FFFFFFFFFFFFFFF &&& p.1), p.2)

/-- `ThreadsafePoolRNG.Seed` from fastrand64.go: its body is
`panic("Cant seed a ThreadsafePoolRNG")`, embedded as an
unconditionally failing computation.  The pool state `g` and the seed
are both ignored by the source. -/
def ThreadsafePoolRNG.Seed {σ : Type} (g : σ) (seed : Int) :
    Except String Unit :=
  Except.error "Cant seed a ThreadsafePoolRNG"

/-- `ThreadsafePoolRNG.Uint32n` from fastrand64.go:
`x := s.Uint64() & 0x00000000FFFFFFFF; return uint32((x * uint64(maxN)) >> 32)`.
The `uint64` product wraps modulo `2 ^ 64` and the final `uint32`
conversion truncates modulo `2 ^ 32`. -/
def ThreadsafePoolRNG.Uint32n {σ : Type} (next : σ → Nat × σ) (g : σ)
    (maxN : Nat) : Nat × σ :=
  let p := ThreadsafePoolRNG.Uint64 next g
  let x := p.1 &&& 0x00000000FFFFFFFF
  ((((x * maxN) % 2 ^ 64) >>> 32) % 2 ^ 32, p.2)

/-- One full 8-byte chunk of `Bytes` from fastrand64.go: the source
writes `bytes[i] = byte(x); bytes[i+1] = byte(x >> 8); ...;
bytes[i+7] = byte(x >> 56)`, i.e. the draw `x` in little-endian byte
order (`byte(_)` truncates modulo 256). -/
def chunkBytes (x : Nat) : List Nat :=
  [x % 256, (x >>> 8) % 256, (x >>> 16) % 256, (x >>> 24) % 256,
   (x >>> 32) % 256, (x >>> 40) % 256, (x >>> 48) % 256, (x >>> 56) % 256]

/-- The first loop of `Bytes` from fastrand64.go, which runs while
`i != iMax` stepping `i` by 8: `k` counts its remaining iterations; each
iteration draws one `uint64` and emits its 8 little-endian bytes. -/
def bytesChunks {σ : Type} (next : σ → Nat × σ) : Nat → σ → List Nat × σ
  | 0, g => ([], g)
  | k + 1, g =>
      let p := next g
      let q := bytesChunks next k p.2
      (chunkBytes p.1 ++ q.1, q.2)

/-- The second loop of `Bytes` from fastrand64.go: starting from the
already-drawn `x` it writes `bytes[i] = byte(x); x >>= 8; i += 1` while
`i < n`, i.e. emits the `m = n - iMax` low-order bytes of `x` in
little-endian order. -/
def tailBytes : Nat → Nat → List Nat
  | _, 0 => []
  | x, m + 1 => x % 256 :: tailBytes (x >>> 8) m

/-- `Bytes` from fastrand64.go over an abstract generator: the chunk
loop runs `iMax / 8 = n / 8` times, then the source draws one more
`uint64` unconditionally (`x := r.Uint64()` after the first loop) and
the tail loop writes its `n % 8` low-order bytes. -/
def Bytes {σ : Type} (next : σ → Nat × σ) (n : Nat) (g : σ) :
    List Nat × σ :=
  let q := bytesChunks next ((n - n % 8) / 8) g
  let p := next q.2
  (q.1 ++ tailBytes p.1 (n % 8), p.2)

/-- A counting generator over an arbitrary draw stream `f`: state `c` is
the number of draws made so far, so draw counts can be read off the
final state. -/
def counting (f : Nat → Nat) : Nat → Nat × Nat :=
  fun c => (f c, c + 1)

end Fastrand64

namespace Fastrand64

theorem shiftRight_self_le (x k : Nat) : x >>> k ≤ x := by
  rw [Nat.shiftRight_eq_div_pow]
  exact Nat.div_le_self x (2 ^ k)

theorem xorShift_inj (k : Nat) (hk : 0 < k) (x y : Nat)
    (h : x ^^^ (x >>> k) = y ^^^ (y >>> k)) : x = y := by
  have hbit : ∀ i, (x ^^^ y).testBit i = (x ^^^ y).testBit (i + k) := by
    intro i
    have h4 := congrArg (fun t => t.testBit i) h
    simp only [Nat.testBit_xor, Nat.testBit_shiftRight] at h4
    simp only [Nat.testBit_xor]
    rw [Nat.add_comm i k]
    cases hxi : x.testBit i <;> cases hxk : x.testBit (k + i) <;>
      cases hyi : y.testBit i <;> cases hyk : y.testBit (k + i) <;> simp_all
  have per : ∀ j i, (x ^^^ y).testBit i = (x ^^^ y).testBit (i + j * k) := by
    intro j
    induction j with
    | zero => intro i; simp
    | succ j ih =>
        intro i
        rw [ih i, hbit (i + j * k)]
        congr 1
        ring
  have hzero : ∀ i, (x ^^^ y).testBit i = false := by
    intro i
    rw [per (x ^^^ y) i]
    apply Nat.testBit_lt_two_pow
    have h1 : x ^^^ y < 2 ^ (x ^^^ y) := Nat.lt_two_pow _
    have h2 : (x ^^^ y) ≤ i + (x ^^^ y) * k := by
      have h3 : (x ^^^ y) * 1 ≤ (x ^^^ y) * k := Nat.mul_le_mul_left _ hk
      omega
    exact lt_of_lt_of_le h1 (Nat.pow_le_pow_right (by norm_num) h2)
  have hxy : x ^^^ y = 0 := by
    apply Nat.eq_of_testBit_eq
    intro i
    simp [hzero]
  exact Nat.xor_eq_zero.mp hxy

theorem mul_odd_cancel (C : Nat) (hodd : C % 2 = 1) (a b : Nat)
    (ha : a < 2 ^ 64) (hb : b < 2 ^ 64)
    (h : (a * C) % 2 ^ 64 = (b * C) % 2 ^ 64) : a = b := by
  have hcop : Nat.gcd (2 ^ 64) C = 1 := by
    have h2 : Nat.Coprime 2 C := by
      unfold Nat.Coprime
      rw [Nat.gcd_rec, hodd]
      simp
    exact Nat.Coprime.pow_left 64 h2
  have hme : a ≡ b [MOD 2 ^ 64] :=
    Nat.ModEq.cancel_right_of_coprime hcop h
  have h5 : a % 2 ^ 64 = b % 2 ^ 64 := hme
  rw [Nat.mod_eq_of_lt ha, Nat.mod_eq_of_lt hb] at h5
  exact h5

theorem Splitmix64_lt (x : Nat) : Splitmix64 x < 2 ^ 64 := by
  simp only [Splitmix64]
  apply Nat.xor_lt_two_pow
  · exact Nat.mod_lt _ (by norm_num)
  · exact lt_of_le_of_lt (shiftRight_self_le _ _) (Nat.mod_lt _ (by norm_num))

theorem Splitmix64_inj (x y : Nat) (hx : x < 2 ^ 64) (hy : y < 2 ^ 64)
    (h : Splitmix64 x = Splitmix64 y) : x = y := by
  simp only [Splitmix64] at h
  set ax := (x + 0x9E3779B97F4A7C15) % 2 ^ 64 with hax
  set ay := (y + 0x9E3779B97F4A7C15) % 2 ^ 64 with hay
  set bx := ((ax ^^^ (ax >>> 30)) * 0xBF58476D1CE4E5B9) % 2 ^ 64 with hbx
  set by' := ((ay ^^^ (ay >>> 30)) * 0xBF58476D1CE4E5B9) % 2 ^ 64 with hby
  set cx := ((bx ^^^ (bx >>> 27)) * 0x94D049BB133111EB) % 2 ^ 64 with hcx
  set cy := ((by' ^^^ (by' >>> 27)) * 0x94D049BB133111EB) % 2 ^ 64 with hcy
  have hc : cx = cy := xorShift_inj 31 (by norm_num) _ _ h
  have hb2 : bx ^^^ (bx >>> 27) = by' ^^^ (by' >>> 27) := by
    apply mul_odd_cancel 0x94D049BB133111EB (by norm_num)
    · exact Nat.xor_lt_two_pow (Nat.mod_lt _ (by norm_num))
        (lt_of_le_of_lt (shiftRight_self_le _ _) (Nat.mod_lt _ (by norm_num)))
    · exact Nat.xor_lt_two_pow (Nat.mod_lt _ (by norm_num))
        (lt_of_le_of_lt (shiftRight_self_le _ _) (Nat.mod_lt _ (by norm_num)))
    · exact hc
  have hb3 : bx = by' := xorShift_inj 27 (by norm_num) _ _ hb2
  have ha2 : ax ^^^ (ax >>> 30) = ay ^^^ (ay >>> 30) := by
    apply mul_odd_cancel 0xBF58476D1CE4E5B9 (by norm_num)
    · exact Nat.xor_lt_two_pow (Nat.mod_lt _ (by norm_num))
        (lt_of_le_of_lt (shiftRight_self_le _ _) (Nat.mod_lt _ (by norm_num)))
    · exact Nat.xor_lt_two_pow (Nat.mod_lt _ (by norm_num))
        (lt_of_le_of_lt (shiftRight_self_le _ _) (Nat.mod_lt _ (by norm_num)))
    · exact hb3
  have ha3 : ax = ay := xorShift_inj 30 (by norm_num) _ _ ha2
  rw [hax, hay] at ha3
  have hme : x ≡ y [MOD 2 ^ 64] :=
    Nat.ModEq.add_right_cancel' 0x9E3779B97F4A7C15 ha3
  have hfin : x % 2 ^ 64 = y % 2 ^ 64 := hme
  rw [Nat.mod_eq_of_lt hx, Nat.mod_eq_of_lt hy] at hfin
  exact hfin

theorem Splitmix64_mod (x : Nat) : Splitmix64 (x % 2 ^ 64) = Splitmix64 x := by
  simp only [Splitmix64]
  have e : (x % 2 ^ 64 + 0x9E3779B97F4A7C15) % 2 ^ 64 =
      (x + 0x9E3779B97F4A7C15) % 2 ^ 64 := by omega
  rw [e]

theorem splitmix_consecutive (a : Nat) :
    Splitmix64 a ≠ 0 ∨ Splitmix64 (a + 1) ≠ 0 := by
  by_contra hcon
  push_neg at hcon
  obtain ⟨h0, h1⟩ := hcon
  have e0 : Splitmix64 (a % 2 ^ 64) = 0 := by rw [Splitmix64_mod]; exact h0
  have e1 : Splitmix64 ((a + 1) % 2 ^ 64) = 0 := by rw [Splitmix64_mod]; exact h1
  have heq : a % 2 ^ 64 = (a + 1) % 2 ^ 64 :=
    Splitmix64_inj _ _ (Nat.mod_lt _ (by norm_num)) (Nat.mod_lt _ (by norm_num))
      (e0.trans e1.symm)
  omega

/-- Each of the `Seed` loops in fastrand64.go terminates: among the
inputs `seed + i, seed + i + 1, ...` some `Splitmix64` value is
nonzero (already within the first two, since `Splitmix64` is injective
modulo `2 ^ 64` and so has at most one zero preimage). -/
theorem seed_exists (seed i : Nat) :
    ∃ j, Splitmix64 (seed + i + j) ≠ 0 := by
  rcases splitmix_consecutive (seed + i) with h | h
  · exact ⟨0, h⟩
  · exact ⟨1, h⟩

/-- The number of extra counter increments one `Seed` loop makes from
counter value `i`: the least `j` with `Splitmix64(seed + i + j) ≠ 0`. -/
def seedFind (seed i : Nat) : Nat := Nat.find (seed_exists seed i)

/-- The state word one `Seed` loop assigns when entered with counter
value `i`: the first nonzero `Splitmix64(seed + i + j)`. -/
def seedWord (seed i : Nat) : Nat := Splitmix64 (seed + i + seedFind seed i)

/-- The counter value after one `Seed` loop entered at `i`: the Go
`for` loop runs its `i++` post-statement once more after the body that
produced the nonzero word, and the counter is never reset. -/
def seedNext (seed i : Nat) : Nat := i + seedFind seed i + 1

/-- `UnsafeXoshiro256ssRNG.Seed` from fastrand64.go: four retry loops
filling `s0, s1, s2, s3` in order, sharing the single incrementing
counter `i` (`seed` is the Go `uint64(seed)` conversion of the `int64`
argument; `Splitmix64` only depends on its argument modulo `2 ^ 64`,
matching the wrapping `uint64(seed) + uint64(i)`). -/
def UnsafeXoshiro256ssRNG.Seed (seed : Nat) : UnsafeXoshiro256ssRNG :=
  ⟨seedWord seed 0,
   seedWord seed (seedNext seed 0),
   seedWord seed (seedNext seed (seedNext seed 0)),
   seedWord seed (seedNext seed (seedNext seed (seedNext seed 0)))⟩

/-- One state transition of the core generator: `Uint64` discarding the
drawn value. -/
def stepRNG (r : UnsafeXoshiro256ssRNG) : UnsafeXoshiro256ssRNG :=
  (UnsafeXoshiro256ssRNG.Uint64 r).2

/-- All four state words are genuine `uint64` values. -/
def stateWf (r : UnsafeXoshiro256ssRNG) : Prop :=
  r.s0 < 2 ^ 64 ∧ r.s1 < 2 ^ 64 ∧ r.s2 < 2 ^ 64 ∧ r.s3 < 2 ^ 64

end Fastrand64

namespace Fastrand64

theorem shift17_fix (w : Nat) :
    ∀ d, d < 2 ^ w → d = (d * 2 ^ 17) % 2 ^ w → d = 0 := by
  induction w using Nat.strong_induction_on with
  | _ w ih =>
    intro d hd hfix
    by_cases hw : w ≤ 17
    · have hdvd : 2 ^ w ∣ d * 2 ^ 17 :=
        dvd_trans (pow_dvd_pow 2 hw) (dvd_mul_left (2 ^ 17) d)
      have hz : (d * 2 ^ 17) % 2 ^ w = 0 := Nat.mod_eq_zero_of_dvd hdvd
      rw [hz] at hfix
      exact hfix
    · push_neg at hw
      have h17w : (2 : Nat) ^ 17 ∣ 2 ^ w := pow_dvd_pow 2 (by omega)
      have hlow : d % 2 ^ 17 = 0 := by
        have h1 : d % 2 ^ 17 = ((d * 2 ^ 17) % 2 ^ w) % 2 ^ 17 := by
          rw [← hfix]
        rw [Nat.mod_mod_of_dvd _ h17w] at h1
        have h2 : (d * 2 ^ 17) % 2 ^ 17 = 0 :=
          Nat.mod_eq_zero_of_dvd (dvd_mul_left (2 ^ 17) d)
        rw [h2] at h1
        exact h1
      obtain ⟨e, he⟩ : (2 : Nat) ^ 17 ∣ d := Nat.dvd_of_mod_eq_zero hlow
      have hsplit : (2 : Nat) ^ w = 2 ^ 17 * 2 ^ (w - 17) := by
        rw [← pow_add]
        congr 1
        omega
      have helt : e < 2 ^ (w - 17) := by
        by_contra hcon
        push_neg at hcon
        have hle : 2 ^ 17 * 2 ^ (w - 17) ≤ 2 ^ 17 * e := Nat.mul_le_mul_left _ hcon
        rw [← hsplit] at hle
        omega
      have hfix2 : e = (e * 2 ^ 17) % 2 ^ (w - 17) := by
        have h3 : 2 ^ 17 * e = (2 ^ 17 * (e * 2 ^ 17)) % (2 ^ 17 * 2 ^ (w - 17)) := by
          rw [← hsplit]
          calc 2 ^ 17 * e = d := he.symm
            _ = (d * 2 ^ 17) % 2 ^ w := hfix
            _ = (2 ^ 17 * (e * 2 ^ 17)) % 2 ^ w := by rw [he, Nat.mul_assoc]
        rw [Nat.mul_mod_mul_left] at h3
        exact Nat.eq_of_mul_eq_mul_left (by norm_num) h3
      have hez : e = 0 := ih (w - 17) (by omega) e helt hfix2
      rw [he, hez]
      simp

theorem or_zero_parts (x y : Nat) (h : x ||| y = 0) : x = 0 ∧ y = 0 := by
  constructor <;> apply Nat.eq_of_testBit_eq <;> intro i <;>
    have hb := congrArg (fun t => t.testBit i) h <;>
    simp [Nat.testBit_or] at hb <;> simp [hb]

theorem rol45_eq_zero (v : Nat) (h : rol64 v 45 = 0) : v = 0 := by
  have h' : ((v <<< 45) % 2 ^ 64) ||| (v >>> 19) = 0 := h
  obtain ⟨h1, h2⟩ := or_zero_parts _ _ h'
  rw [Nat.shiftRight_eq_div_pow] at h2
  rw [Nat.shiftLeft_eq] at h1
  obtain ⟨m, hm⟩ : (2 : Nat) ^ 64 ∣ v * 2 ^ 45 := Nat.dvd_of_mod_eq_zero h1
  have hv19 : v = 2 ^ 19 * m := by
    have hmm : v * 2 ^ 45 = (2 ^ 19 * m) * 2 ^ 45 := by
      rw [hm]
      ring
    exact Nat.eq_of_mul_eq_mul_right (by norm_num) hmm
  have hvlt : v < 2 ^ 19 := by omega
  omega

theorem step_wf (r : UnsafeXoshiro256ssRNG) (h : stateWf r) :
    stateWf (stepRNG r) := by
  obtain ⟨s0, s1, s2, s3⟩ := r
  obtain ⟨h0, h1, h2, h3⟩ := h
  refine ⟨?_, ?_, ?_, ?_⟩
  · show s0 ^^^ (s3 ^^^ s1) < 2 ^ 64
    exact Nat.xor_lt_two_pow h0 (Nat.xor_lt_two_pow h3 h1)
  · show s1 ^^^ (s2 ^^^ s0) < 2 ^ 64
    exact Nat.xor_lt_two_pow h1 (Nat.xor_lt_two_pow h2 h0)
  · show (s2 ^^^ s0) ^^^ ((s1 <<< 17) % 2 ^ 64) < 2 ^ 64
    exact Nat.xor_lt_two_pow (Nat.xor_lt_two_pow h2 h0)
      (Nat.mod_lt _ (by norm_num))
  · show ((s3 ^^^ s1) <<< 45 % 2 ^ 64) ||| ((s3 ^^^ s1) >>> (64 - 45)) < 2 ^ 64
    exact Nat.or_lt_two_pow (Nat.mod_lt _ (by norm_num))
      (lt_of_le_of_lt (shiftRight_self_le _ _) (Nat.xor_lt_two_pow h3 h1))

theorem step_nonzero (r : UnsafeXoshiro256ssRNG) (hwf : stateWf r)
    (hne : r ≠ ⟨0, 0, 0, 0⟩) : stepRNG r ≠ ⟨0, 0, 0, 0⟩ := by
  obtain ⟨s0, s1, s2, s3⟩ := r
  intro hcon
  have e0 : s0 ^^^ (s3 ^^^ s1) = 0 := congrArg UnsafeXoshiro256ssRNG.s0 hcon
  have e1 : s1 ^^^ (s2 ^^^ s0) = 0 := congrArg UnsafeXoshiro256ssRNG.s1 hcon
  have e2 : (s2 ^^^ s0) ^^^ ((s1 <<< 17) % 2 ^ 64) = 0 :=
    congrArg UnsafeXoshiro256ssRNG.s2 hcon
  have e3 : rol64 (s3 ^^^ s1) 45 = 0 := congrArg UnsafeXoshiro256ssRNG.s3 hcon
  have h31 : s3 = s1 := Nat.xor_eq_zero.mp (rol45_eq_zero _ e3)
  have hs0 : s0 = 0 := by
    rw [h31] at e0
    simpa using e0
  have hs12 : s1 = s2 := by
    rw [hs0] at e1
    exact Nat.xor_eq_zero.mp (by simpa using e1)
  have hs1 : s1 = 0 := by
    rw [hs0, ← hs12] at e2
    have hfix : s1 = (s1 * 2 ^ 17) % 2 ^ 64 := by
      have h' := Nat.xor_eq_zero.mp (by simpa using e2)
      rw [Nat.shiftLeft_eq] at h'
      exact h'
    exact shift17_fix 64 s1 hwf.2.1 hfix
  apply hne
  have hs2 : s2 = 0 := by rw [← hs12, hs1]
  have hs3 : s3 = 0 := by rw [h31, hs1]
  rw [hs0, hs1, hs2, hs3]

theorem seedWord_ne_zero (seed i : Nat) : seedWord seed i ≠ 0 :=
  Nat.find_spec (seed_exists seed i)

theorem seed_stateWf (seed : Nat) :
    stateWf (UnsafeXoshiro256ssRNG.Seed seed) :=
  ⟨Splitmix64_lt _, Splitmix64_lt _, Splitmix64_lt _, Splitmix64_lt _⟩

/-- Claim C3: for every input seed (the Go `uint64(seed)` image,
including 0), all four state words left by `Seed` are nonzero. -/
theorem c3_seed_leaves_no_zero_word (seed : Nat) :
    (UnsafeXoshiro256ssRNG.Seed seed).s0 ≠ 0 ∧
    (UnsafeXoshiro256ssRNG.Seed seed).s1 ≠ 0 ∧
    (UnsafeXoshiro256ssRNG.Seed seed).s2 ≠ 0 ∧
    (UnsafeXoshiro256ssRNG.Seed seed).s3 ≠ 0 :=
  ⟨seedWord_ne_zero _ _, seedWord_ne_zero _ _,
   seedWord_ne_zero _ _, seedWord_ne_zero _ _⟩

/-- Claim C7: `Seed` fills the four words in order from the single
shared counter, never reset.  First conjunct: when
`Splitmix64(seed + 0) .. Splitmix64(seed + 3)` are all nonzero the
state is exactly those four values.  Second conjunct: when the first
expander call produces zero, the counter keeps incrementing past it
rather than restarting, so the four words shift to
`Splitmix64(seed + 1) .. Splitmix64(seed + 4)`.  Third conjunct: in
general, each retry loop entered at counter value `i` skips exactly
the indices whose expander value is zero, assigns the first nonzero
`Splitmix64(seed + i + j)`, and hands the counter `i + j + 1` (one
past the successful index) to the next loop.  Fourth conjunct: `Seed`
chains the four loops on that shared counter starting from 0. -/
theorem c7_seed_uses_shared_counter (seed : Nat) :
    (Splitmix64 (seed + 0) ≠ 0 → Splitmix64 (seed + 1) ≠ 0 →
     Splitmix64 (seed + 2) ≠ 0 → Splitmix64 (seed + 3) ≠ 0 →
     UnsafeXoshiro256ssRNG.Seed seed =
       ⟨Splitmix64 (seed + 0), Splitmix64 (seed + 1),
        Splitmix64 (seed + 2), Splitmix64 (seed + 3)⟩) ∧
    (Splitmix64 (seed + 0) = 0 → Splitmix64 (seed + 1) ≠ 0 →
     Splitmix64 (seed + 2) ≠ 0 → Splitmix64 (seed + 3) ≠ 0 →
     Splitmix64 (seed + 4) ≠ 0 →
     UnsafeXoshiro256ssRNG.Seed seed =
       ⟨Splitmix64 (seed + 1), Splitmix64 (seed + 2),
        Splitmix64 (seed + 3), Splitmix64 (seed + 4)⟩) ∧
    (∀ i, (∀ j, j < seedFind seed i → Splitmix64 (seed + i + j) = 0) ∧
      Splitmix64 (seed + i + seedFind seed i) ≠ 0 ∧
      seedNext seed i = i + seedFind seed i + 1) ∧
    UnsafeXoshiro256ssRNG.Seed seed =
      ⟨seedWord seed 0, seedWord seed (seedNext seed 0),
       seedWord seed (seedNext seed (seedNext seed 0)),
       seedWord seed (seedNext seed (seedNext seed (seedNext seed 0)))⟩ := by
  refine ⟨?_, ?_, ?_, rfl⟩
  · intro h0 h1 h2 h3
    have f0 : seedFind seed 0 = 0 := (Nat.find_eq_zero _).mpr (by simpa using h0)
    have n0 : seedNext seed 0 = 1 := by rw [seedNext, f0]
    have f1 : seedFind seed 1 = 0 := (Nat.find_eq_zero _).mpr (by simpa using h1)
    have n1 : seedNext seed 1 = 2 := by rw [seedNext, f1]
    have f2 : seedFind seed 2 = 0 := (Nat.find_eq_zero _).mpr (by simpa using h2)
    have n2 : seedNext seed 2 = 3 := by rw [seedNext, f2]
    have f3 : seedFind seed 3 = 0 := (Nat.find_eq_zero _).mpr (by simpa using h3)
    show (⟨seedWord seed 0, seedWord seed (seedNext seed 0),
      seedWord seed (seedNext seed (seedNext seed 0)),
      seedWord seed (seedNext seed (seedNext seed (seedNext seed 0)))⟩ :
        UnsafeXoshiro256ssRNG) = _
    rw [n0, n1, n2]
    simp [seedWord, f0, f1, f2, f3]
  · intro h0 h1 h2 h3 h4
    have f0 : seedFind seed 0 = 1 := by
      apply (Nat.find_eq_iff _).mpr
      constructor
      · simpa using h1
      · intro m hm
        have hm0 : m = 0 := by omega
        subst hm0
        simp only [ne_eq, not_not]
        simpa using h0
    have n0 : seedNext seed 0 = 2 := by rw [seedNext, f0]
    have f1 : seedFind seed 2 = 0 := (Nat.find_eq_zero _).mpr (by simpa using h2)
    have n1 : seedNext seed 2 = 3 := by rw [seedNext, f1]
    have f2 : seedFind seed 3 = 0 := (Nat.find_eq_zero _).mpr (by simpa using h3)
    have n2 : seedNext seed 3 = 4 := by rw [seedNext, f2]
    have f3 : seedFind seed 4 = 0 := (Nat.find_eq_zero _).mpr (by simpa using h4)
    show (⟨seedWord seed 0, seedWord seed (seedNext seed 0),
      seedWord seed (seedNext seed (seedNext seed 0)),
      seedWord seed (seedNext seed (seedNext seed (seedNext seed 0)))⟩ :
        UnsafeXoshiro256ssRNG) = _
    rw [n0, n1, n2]
    simp [seedWord, f0, f1, f2, f3]
  · intro i
    refine ⟨?_, Nat.find_spec (seed_exists seed i), rfl⟩
    intro j hj
    exact not_not.mp (Nat.find_min (seed_exists seed i) hj)

/-- Claim C7 witness: the shared-counter theorem instantiated twice —
at seed 0 (all four expander values nonzero) and at seed
`0x61C8864680B583EB`, the unique seed whose first expander call
produces zero, showing the counter stepping past the zero. -/
theorem c7_seed_uses_shared_counter_witness :
    (Splitmix64 (0 + 0) ≠ 0 ∧ Splitmix64 (0 + 1) ≠ 0 ∧
     Splitmix64 (0 + 2) ≠ 0 ∧ Splitmix64 (0 + 3) ≠ 0 ∧
     UnsafeXoshiro256ssRNG.Seed 0 =
       ⟨Splitmix64 (0 + 0), Splitmix64 (0 + 1),
        Splitmix64 (0 + 2), Splitmix64 (0 + 3)⟩) ∧
    (Splitmix64 (0x61C8864680B583EB + 0) = 0 ∧
     Splitmix64 (0x61C8864680B583EB + 1) ≠ 0 ∧
     Splitmix64 (0x61C8864680B583EB + 2) ≠ 0 ∧
     Splitmix64 (0x61C8864680B583EB + 3) ≠ 0 ∧
     Splitmix64 (0x61C8864680B583EB + 4) ≠ 0 ∧
     UnsafeXoshiro256ssRNG.Seed 0x61C8864680B583EB =
       ⟨Splitmix64 (0x61C8864680B583EB + 1),
        Splitmix64 (0x61C8864680B583EB + 2),
        Splitmix64 (0x61C8864680B583EB + 3),
        Splitmix64 (0x61C8864680B583EB + 4)⟩) :=
  ⟨⟨by decide, by decide, by decide, by decide,
    (c7_seed_uses_shared_counter 0).1 (by decide) (by decide) (by decide)
      (by decide)⟩,
   ⟨by decide, by decide, by decide, by decide, by decide,
    (c7_seed_uses_shared_counter 0x61C8864680B583EB).2.1 (by decide)
      (by decide) (by decide) (by decide) (by decide)⟩⟩

/-- Claim C9: the all-zero 256-bit state is a fixed point of the
`Uint64` transition, and no sequence of `Uint64` calls starting from
any seeded state ever reaches it. -/
theorem c9_all_zero_unreachable_from_seeded :
    stepRNG ⟨0, 0, 0, 0⟩ = ⟨0, 0, 0, 0⟩ ∧
    ∀ seed n, stepRNG^[n] (UnsafeXoshiro256ssRNG.Seed seed) ≠ ⟨0, 0, 0, 0⟩ := by
  constructor
  · decide
  · intro seed n
    have key : ∀ m, stateWf (stepRNG^[m] (UnsafeXoshiro256ssRNG.Seed seed)) ∧
        stepRNG^[m] (UnsafeXoshiro256ssRNG.Seed seed) ≠ ⟨0, 0, 0, 0⟩ := by
      intro m
      induction m with
      | zero =>
          refine ⟨seed_stateWf seed, ?_⟩
          intro hcon
          exact seedWord_ne_zero seed 0 (congrArg UnsafeXoshiro256ssRNG.s0 hcon)
      | succ m ih =>
          rw [Function.iterate_succ_apply']
          exact ⟨step_wf _ ih.1, step_nonzero _ ih.1 ih.2⟩
    exact (key n).2

end Fastrand64

namespace Fastrand64

theorem chunkBytes_length (x : Nat) : (chunkBytes x).length = 8 := rfl

theorem tailBytes_length (x m : Nat) : (tailBytes x m).length = m := by
  induction m generalizing x with
  | zero => rfl
  | succ m ih => simp [tailBytes, ih]

theorem bytesChunks_length {σ : Type} (next : σ → Nat × σ) (k : Nat)
    (g : σ) : (bytesChunks next k g).1.length = 8 * k := by
  induction k generalizing g with
  | zero => rfl
  | succ k ih =>
      simp [bytesChunks, chunkBytes, ih]
      omega

theorem bytesChunks_counting_state (f : Nat → Nat) (k c : Nat) :
    (bytesChunks (counting f) k c).2 = c + k := by
  induction k generalizing c with
  | zero => rfl
  | succ k ih =>
      show (bytesChunks (counting f) k (c + 1)).2 = c + (k + 1)
      rw [ih]
      omega

theorem chunkBytes_getD (x j : Nat) (h : j < 8) :
    (chunkBytes x).getD j 0 = (x >>> (8 * j)) % 256 := by
  interval_cases j <;> simp [chunkBytes]

theorem tailBytes_getD (m : Nat) :
    ∀ x j, j < m → (tailBytes x m).getD j 0 = (x >>> (8 * j)) % 256 := by
  induction m with
  | zero => intro x j h; omega
  | succ m ih =>
      intro x j h
      cases j with
      | zero => simp [tailBytes]
      | succ j =>
          show (tailBytes (x >>> 8) m).getD j 0 = (x >>> (8 * (j + 1))) % 256
          rw [ih (x >>> 8) j (by omega), ← Nat.shiftRight_add]
          have e : 8 + 8 * j = 8 * (j + 1) := by omega
          rw [e]

theorem bytesChunks_getD (f : Nat → Nat) (k : Nat) :
    ∀ c j, j < 8 * k →
      (bytesChunks (counting f) k c).1.getD j 0 =
        (f (c + j / 8) >>> (8 * (j % 8))) % 256 := by
  induction k with
  | zero => intro c j h; omega
  | succ k ih =>
      intro c j h
      show (chunkBytes (f c) ++ (bytesChunks (counting f) k (c + 1)).1).getD j 0 = _
      by_cases hj : j < 8
      · rw [List.getD_append _ _ _ _ (by rw [chunkBytes_length]; exact hj)]
        rw [chunkBytes_getD _ _ hj]
        have h1 : j / 8 = 0 := by omega
        have h2 : j % 8 = j := by omega
        rw [h1, h2]
        simp
      · rw [List.getD_append_right _ _ _ _ (by rw [chunkBytes_length]; omega)]
        rw [chunkBytes_length]
        rw [ih (c + 1) (j - 8) (by omega)]
        have e1 : c + 1 + (j - 8) / 8 = c + j / 8 := by omega
        have e2 : (j - 8) % 8 = j % 8 := by omega
        rw [e1, e2]

/-- Claim C2 (counterexample): `Bytes` with `n = 0` performs one draw,
not zero — the source draws one `uint64` unconditionally between its
two loops, even when nothing remains to write. -/
theorem c2_zero_length_one_draw_counterexample :
    (Bytes (counting (fun j => j)) 0 0).2 = 1 ∧
    (Bytes (counting (fun j => j)) 0 0).2 ≠ 0 := by
  refine ⟨rfl, ?_⟩
  decide

/-- Claim C2 (amended): for every draw stream and every `n ≥ 0`, `Bytes`
writes exactly `n` bytes and performs exactly `n / 8 + 1` draws — that
is `ceil(n / 8)` when `n` is not a multiple of 8, and one more than
`ceil(n / 8)` (the extra draw being discarded) when it is, including
one draw for `n = 0`. -/
theorem c2_bytes_length_and_draw_count (f : Nat → Nat) (n : Nat) :
    (Bytes (counting f) n 0).1.length = n ∧
    (Bytes (counting f) n 0).2 = n / 8 + 1 := by
  constructor
  · simp only [Bytes, List.length_append, bytesChunks_length, tailBytes_length]
    omega
  · simp only [Bytes, counting, bytesChunks_counting_state]
    omega

/-- Claim C8: `Bytes` fills the buffer in 8-byte little-endian chunks
from successive draws: byte `k` of the output is byte `k % 8`
(least-significant first) of draw number `k / 8`; for the final partial
chunk this is one more draw whose low-order bytes only are written. -/
theorem c8_bytes_little_endian_layout (f : Nat → Nat) (n k : Nat)
    (h : k < n) :
    (Bytes (counting f) n 0).1.getD k 0 =
      (f (k / 8) >>> (8 * (k % 8))) % 256 := by
  have hst : (bytesChunks (counting f) ((n - n % 8) / 8) 0).2 =
      (n - n % 8) / 8 := by
    simpa using bytesChunks_counting_state f ((n - n % 8) / 8) 0
  have hlen : (bytesChunks (counting f) ((n - n % 8) / 8) 0).1.length =
      8 * ((n - n % 8) / 8) := bytesChunks_length _ _ _
  show ((bytesChunks (counting f) ((n - n % 8) / 8) 0).1 ++
      tailBytes (f (bytesChunks (counting f) ((n - n % 8) / 8) 0).2) (n % 8)).getD
        k 0 = _
  by_cases hk : k < 8 * ((n - n % 8) / 8)
  · rw [List.getD_append _ _ _ _ (by rw [hlen]; exact hk)]
    rw [bytesChunks_getD f _ 0 k (by omega)]
    simp
  · rw [List.getD_append_right _ _ _ _ (by rw [hlen]; omega)]
    rw [hlen, hst]
    rw [tailBytes_getD (n % 8) _ (k - 8 * ((n - n % 8) / 8)) (by omega)]
    have e2 : k - 8 * ((n - n % 8) / 8) = k % 8 := by omega
    have e1 : (n - n % 8) / 8 = k / 8 := by omega
    rw [e2, e1]

/-- Claim C8 witness: the layout theorem at `n = 11`, `k = 9` (a byte of
the final partial chunk) with a concrete draw stream. -/
theorem c8_bytes_little_endian_layout_witness :
    9 < 11 ∧
    (Bytes (counting (fun j => 1000 * j + 123)) 11 0).1.getD 9 0 =
      ((fun j => 1000 * j + 123) (9 / 8) >>> (8 * (9 % 8))) % 256 :=
  ⟨by decide, c8_bytes_little_endian_layout (fun j => 1000 * j + 123) 11 9
    (by decide)⟩

/-- Claim C1 (counterexample): with state
`(0x01d353e5f3993bb0, 0x7b9c0df6cb193b20, 0xfdfcaa91110765b6, 0xd2db341f10bb232e)`,
the first `Uint64` draw is not `0xdd51b2b7d9303a37`: that constant is the
big-endian reading of the draw's little-endian byte serialization, not
the drawn `uint64` itself. -/
theorem c1_first_draw_not_bigendian_constant :
    (UnsafeXoshiro256ssRNG.Uint64
      ⟨0x01d353e5f3993bb0, 0x7b9c0df6cb193b20,
       0xfdfcaa91110765b6, 0xd2db341f10bb232e⟩).1 ≠ 0xdd51b2b7d9303a37 := by
  decide

/-- Claim C1 (amended): with that same state the first draw is
`0x373a30d9b7b251dd` and the second is `0x50fd70a66663d9eb` (the
byte-reversals of the constants the claim names, which describe the
little-endian byte dump of the output stream). -/
theorem c1_xoshiro_reference_draws :
    (UnsafeXoshiro256ssRNG.Uint64
      ⟨0x01d353e5f3993bb0, 0x7b9c0df6cb193b20,
       0xfdfcaa91110765b6, 0xd2db341f10bb232e⟩).1 = 0x373a30d9b7b251dd ∧
    (UnsafeXoshiro256ssRNG.Uint64
      (UnsafeXoshiro256ssRNG.Uint64
        ⟨0x01d353e5f3993bb0, 0x7b9c0df6cb193b20,
         0xfdfcaa91110765b6, 0xd2db341f10bb232e⟩).2).1 = 0x50fd70a66663d9eb := by
  constructor
  · decide
  · decide

/-- Claim C6: one `Uint64` call returns `rol64(s1 * 5, 7) * 9` computed
on the pre-transition state (all arithmetic modulo `2 ^ 64`), and the
new state is the net effect of the sequential assignments
`t = s1 << 17; s2 ^= s0; s3 ^= s1; s1 ^= s2; s0 ^= s3; s2 ^= t;
s3 = rol64(s3, 45)`, written here as simultaneous equations in the
pre-state words. -/
theorem c6_uint64_output_and_transition (s0 s1 s2 s3 : Nat) :
    UnsafeXoshiro256ssRNG.Uint64 ⟨s0, s1, s2, s3⟩ =
      ((rol64 ((s1 * 5) % 2 ^ 64) 7 * 9) % 2 ^ 64,
       ⟨s0 ^^^ (s3 ^^^ s1),
        s1 ^^^ (s2 ^^^ s0),
        (s2 ^^^ s0) ^^^ ((s1 <<< 17) % 2 ^ 64),
        rol64 (s3 ^^^ s1) 45⟩) :=
  rfl

/-- Claim C5: `Seed` on the pool-backed wrapper fails for every seed and
every prior pool state; it never returns successfully. -/
theorem c5_pool_seed_always_fails {σ : Type} (g : σ) (seed : Int) :
    ThreadsafePoolRNG.Seed g seed =
      Except.error "Cant seed a ThreadsafePoolRNG" :=
  rfl

/-- Claim C10: `Int63` returns the low 63 bits of one underlying
`Uint64` draw, hence a value in `[0, 2 ^ 63)`. -/
theorem c10_int63_nonnegative {σ : Type} (next : σ → Nat × σ) (g : σ) :
    0 ≤ (ThreadsafePoolRNG.Int63 next g).1 ∧
    (ThreadsafePoolRNG.Int63 next g).1 < 2 ^ 63 ∧
    (ThreadsafePoolRNG.Int63 next g).1 =
      Int.ofNat (0x7FFFFFFFFFFFFFFF &&& (ThreadsafePoolRNG.Uint64 next g).1) := by
  refine ⟨Int.ofNat_nonneg _, ?_, rfl⟩
  have h : 0x7FFFFFFFFFFFFFFF &&& (ThreadsafePoolRNG.Uint64 next g).1 ≤
      0x7FFFFFFFFFFFFFFF := Nat.and_le_left
  have h2 : 0x7FFFFFFFFFFFFFFF &&& (ThreadsafePoolRNG.Uint64 next g).1 <
      2 ^ 63 := lt_of_le_of_lt h (by norm_num)
  show (Int.ofNat (0x7FFFFFFFFFFFFFFF &&& (ThreadsafePoolRNG.Uint64 next g).1) :
    Int) < 2 ^ 63
  simpa using Int.ofNat_lt.mpr h2

/-- Claim C4: for `0 < maxN < 2 ^ 32`, `Uint32n maxN` returns a value in
`[0, maxN)`, and that value is `((x & 0xFFFFFFFF) * maxN) >> 32` where
`x` is the `uint64` drawn by the pool-backed `Uint64` (neither the
wrapping `% 2 ^ 64` nor the `uint32` truncation has any effect under
these bounds). -/
theorem c4_uint32n_in_range {σ : Type} (next : σ → Nat × σ) (g : σ)
    (maxN : Nat) (hpos : 0 < maxN) (hlt : maxN < 2 ^ 32) :
    (ThreadsafePoolRNG.Uint32n next g maxN).1 < maxN ∧
    (ThreadsafePoolRNG.Uint32n next g maxN).1 =
      (((ThreadsafePoolRNG.Uint64 next g).1 &&& 0x00000000FFFFFFFF) * maxN) >>> 32 := by
  set x := (ThreadsafePoolRNG.Uint64 next g).1 &&& 0x00000000FFFFFFFF with hx
  have hxlt : x < 2 ^ 32 := by
    have : x ≤ 0x00000000FFFFFFFF := Nat.and_le_right
    omega
  have hprod : x * maxN < 2 ^ 64 := by
    have h1 : x * maxN < 2 ^ 32 * 2 ^ 32 :=
      Nat.mul_lt_mul_of_lt_of_lt hxlt hlt
    calc x * maxN < 2 ^ 32 * 2 ^ 32 := h1
      _ = 2 ^ 64 := by norm_num
  have hmod : (x * maxN) % 2 ^ 64 = x * maxN := Nat.mod_eq_of_lt hprod
  have hshift : (x * maxN) >>> 32 < maxN := by
    rw [Nat.shiftRight_eq_div_pow]
    have hlt2 : x * maxN < 2 ^ 32 * maxN :=
      Nat.mul_lt_mul_of_lt_of_le hxlt (le_refl maxN) hpos
    exact Nat.div_lt_of_lt_mul hlt2
  have hres : (ThreadsafePoolRNG.Uint32n next g maxN).1 =
      (x * maxN) >>> 32 := by
    show (((x * maxN) % 2 ^ 64) >>> 32) % 2 ^ 32 = (x * maxN) >>> 32
    rw [hmod]
    exact Nat.mod_eq_of_lt (lt_trans hshift hlt)
  exact ⟨hres ▸ hshift, hres⟩

/-- Claim C4 witness: a concrete instantiation of the range theorem at
`maxN = 10` with a (deterministic) underlying draw. -/
theorem c4_uint32n_in_range_witness :
    0 < 10 ∧ 10 < 2 ^ 32 ∧
    ((ThreadsafePoolRNG.Uint32n (fun c : Nat => (c + 0x123456789A, c + 1)) 0 10).1 < 10 ∧
     (ThreadsafePoolRNG.Uint32n (fun c : Nat => (c + 0x123456789A, c + 1)) 0 10).1 =
       (((ThreadsafePoolRNG.Uint64 (fun c : Nat => (c + 0x123456789A, c + 1)) 0).1 &&&
         0x00000000FFFFFFFF) * 10) >>> 32) :=
  ⟨by decide, by decide,
   c4_uint32n_in_range (fun c : Nat => (c + 0x123456789A, c + 1)) 0 10
     (by decide) (by decide)⟩

end Fastrand64
